import Mathlib

/-!
Verification of the notebook-processing pipeline in
`source/_ext/proc_examples.py` (with constants from
`source/_ext/cookbook/globals.py`).

Filesystem paths are modelled as lists of path components
(`Path("a/b/c")` becomes `["a", "b", "c"]`), with all configured
directory constants expressed relative to the repository root
`OPENFF_DOCS_ROOT`, which is therefore the empty list.  Python `dict`s
keyed by paths are modelled as association lists with Python's
insertion-order/update-in-place semantics.  Fallible functions
(`needed_files` can raise `ValueError`, `unlink`/`rmtree` can raise
`FileNotFoundError`) return `Except String`.
-/

/-- A filesystem path, as its list of components. -/
abbrev FP := List String

/-- From globals.py: name of the Conda environment file in packaged outputs. -/
def PACKAGED_ENV_NAME : FP := ["environment.yaml"]

/-- From globals.py: the repository root; all other constants are relative to it. -/
def OPENFF_DOCS_ROOT : FP := []

/-- From globals.py: the default environment file for notebooks without their own. -/
def UNIVERSAL_ENV_PATH : FP := ["devtools", "conda-envs", "examples_env.yml"]

/-- From globals.py: file names excluded from zips and Colab folders. -/
def IGNORED_FILES : List String :=
  [".gitignore", "Thumbs.db", ".DS_Store", "thumbnail.png", "__pycache__"]

/-- From globals.py: directory notebooks are downloaded to and cached in. -/
def SRC_IPYNB_ROOT : FP := ["build", "notebook-src"]

/-- From globals.py: directory executed notebooks are stored in. -/
def EXEC_IPYNB_ROOT : FP := ["source", "notebooks"]

/-- From globals.py: directory Colab bundles are stored in. -/
def COLAB_IPYNB_ROOT : FP := ["source", "_static", "colab"]

/-- From globals.py: directory zipped notebooks are stored in. -/
def ZIPPED_IPYNB_ROOT : FP := ["source", "_static", "examples"]

/-- Python `path.name`: the final path component (empty for the empty path). -/
def pname (p : FP) : String := p.reverse.headD ""

/-- Python `str(path)`: the components joined by slashes. -/
def pathStr (p : FP) : String := String.intercalate "/" p

/-- Python `path.relative_to(root)` for paths that lie below `root`. -/
def relTo (root p : FP) : FP := p.drop root.length

/-- Whether `p` equals `d` or lies below directory `d`. -/
def underDir (d p : FP) : Bool := d == p.take d.length

/-- Python dict insertion `m[k] = v`: update in place if the key exists
(keeping its position), otherwise append at the end. -/
def dictInsert (m : List (FP × FP)) (k v : FP) : List (FP × FP) :=
  if m.any (fun kv => kv.1 == k) then
    m.map (fun kv => if kv.1 == k then (k, v) else kv)
  else m ++ [(k, v)]

/-- proc_examples.py lines 48-55: the source paths considered by
`needed_files`.  A bare notebook contributes only itself; otherwise all
entries of the notebook's directory except `IGNORED_FILES` names.  The
directory listing is supplied as the list `sibNames` of entry names in
iteration order, each entry living at `parent ++ [name]`; the predicate
`is_bare_notebook` lives in the (separate) cookbook.notebook module, so
bareness is taken as the boolean parameter `bare`. -/
def src_paths (bare : Bool) (parent : FP) (nbName : String) (sibNames : List String) :
    List FP :=
  if bare then [parent ++ [nbName]]
  else (sibNames.filter (fun n => !(IGNORED_FILES.contains n))).map (fun n => parent ++ [n])

/-- proc_examples.py lines 62-70: candidate environment files are those
whose name is `environment.yaml` or `environment.yml`
(`PACKAGED_ENV_NAME.with_suffix` of `.yaml` and `.yml`). -/
def isEnvCandidate (p : FP) : Bool :=
  pname p == "environment.yaml" || pname p == "environment.yml"

/-- proc_examples.py lines 62-70: the list of candidate environment files. -/
def environment_files (paths : List FP) : List FP := paths.filter isEnvCandidate

/-- proc_examples.py lines 57-60: the initial files dict mapping each
source path to its path relative to the notebook's directory. -/
def initialFiles (parent : FP) (paths : List FP) : List (FP × FP) :=
  paths.foldl (fun m p => dictInsert m p (relTo parent p)) []

/-- Python `"".join("\n  " + str(path) for path in env)`. -/
def joinPathLines : List FP → String
  | [] => ""
  | p :: ps => "\n  " ++ pathStr p ++ joinPathLines ps

/-- proc_examples.py lines 86-90: the ValueError message for ambiguous
environment-file candidates. -/
def multiEnvErrorMsg (env : List FP) : String :=
  "Could not choose a Conda environment file from multiple candidates:"
    ++ joinPathLines env
    ++ "\nName the intended Conda environment \x27environment.yaml\x27."

/-- proc_examples.py lines 31-92, `needed_files`: the files needed to run
the notebook at `parent ++ [nbName]`, as (source path, destination
relative path) pairs.  Exactly one environment file is ensured: the
universal one is substituted when there are no candidates, a single
candidate is renamed to `PACKAGED_ENV_NAME`, multiple candidates pass
unchanged when one of them (as a full path) equals `PACKAGED_ENV_NAME`,
and otherwise a ValueError is raised. -/
def needed_files (bare : Bool) (parent : FP) (nbName : String) (sibNames : List String) :
    Except String (List (FP × FP)) :=
  let sp := src_paths bare parent nbName sibNames
  let files := initialFiles parent sp
  let env := environment_files sp
  if env.length == 0 then
    .ok (dictInsert files UNIVERSAL_ENV_PATH PACKAGED_ENV_NAME)
  else if env.length == 1 then
    .ok (dictInsert files (env.headD []) PACKAGED_ENV_NAME)
  else if env.contains PACKAGED_ENV_NAME then
    .ok files
  else
    .error (multiEnvErrorMsg env)

/-- Whether an `Except` value is a success. -/
def exceptIsOk : Except String (List (FP × FP)) → Bool
  | .ok _ => true
  | .error _ => false

lemma dictInsert_mem_self (m : List (FP × FP)) (k v : FP) : (k, v) ∈ dictInsert m k v := by
  unfold dictInsert
  split
  · next hany =>
    obtain ⟨kv, hkv, hk⟩ := List.any_eq_true.mp hany
    exact List.mem_map.mpr ⟨kv, hkv, by simp [hk]⟩
  · exact List.mem_append.mpr (Or.inr (List.mem_singleton.mpr rfl))

lemma dictInsert_mem_elim {m : List (FP × FP)} {k v : FP} {kv : FP × FP}
    (h : kv ∈ dictInsert m k v) : kv = (k, v) ∨ (kv ∈ m ∧ kv.1 ≠ k) := by
  unfold dictInsert at h
  split at h
  · obtain ⟨kv0, hkv0, heq⟩ := List.mem_map.mp h
    by_cases hk : kv0.1 = k
    · left
      simpa [hk] using heq.symm
    · right
      simp only [beq_iff_eq, hk, if_false] at heq
      exact ⟨heq ▸ hkv0, heq ▸ hk⟩
  · next hany =>
    rcases List.mem_append.mp h with hm | hs
    · right
      refine ⟨hm, ?_⟩
      intro hk
      exact hany (List.any_eq_true.mpr ⟨kv, hm, beq_iff_eq.mpr hk⟩)
    · left
      exact List.mem_singleton.mp hs

lemma foldl_dictInsert_mem {parent : FP} {paths : List FP} :
    ∀ {m : List (FP × FP)} {kv : FP × FP},
      kv ∈ paths.foldl (fun m p => dictInsert m p (relTo parent p)) m →
      kv ∈ m ∨ (kv.1 ∈ paths ∧ kv.2 = relTo parent kv.1) := by
  induction paths with
  | nil => exact fun h => Or.inl h
  | cons p ps ih =>
    intro m kv h
    rcases ih h with hm | ⟨h1, h2⟩
    · rcases dictInsert_mem_elim hm with heq | ⟨hmem, _⟩
      · right
        refine ⟨?_, ?_⟩ <;> simp [heq]
      · exact Or.inl hmem
    · exact Or.inr ⟨List.mem_cons_of_mem p h1, h2⟩

lemma initialFiles_mem_elim {parent : FP} {paths : List FP} {kv : FP × FP}
    (h : kv ∈ initialFiles parent paths) :
    kv.1 ∈ paths ∧ kv.2 = relTo parent kv.1 := by
  rcases foldl_dictInsert_mem h with hnil | hgood
  · exact absurd hnil (List.not_mem_nil kv)
  · exact hgood

lemma src_paths_shape {bare : Bool} {parent : FP} {nbName : String}
    {sibNames : List String} {p : FP}
    (h : p ∈ src_paths bare parent nbName sibNames) : ∃ n, p = parent ++ [n] := by
  unfold src_paths at h
  split at h
  · exact ⟨nbName, List.mem_singleton.mp h⟩
  · obtain ⟨n, _, hn⟩ := List.mem_map.mp h
    exact ⟨n, hn.symm⟩

lemma pname_append (parent : FP) (n : String) : pname (parent ++ [n]) = n := by
  simp [pname, List.reverse_append]

lemma relTo_append (parent : FP) (n : String) : relTo parent (parent ++ [n]) = [n] := by
  simp [relTo]

/-- C3: when the sibling assets of a notebook contain zero candidate
environment files (in particular for every bare notebook), `needed_files`
succeeds and its file set maps `UNIVERSAL_ENV_PATH` to
`PACKAGED_ENV_NAME` (proc_examples.py lines 72-74). -/
theorem needed_files_zero_candidates_universal
    (bare : Bool) (parent : FP) (nbName : String) (sibNames : List String)
    (h : environment_files (src_paths bare parent nbName sibNames) = []) :
    ∃ fs, needed_files bare parent nbName sibNames = .ok fs ∧
      (UNIVERSAL_ENV_PATH, PACKAGED_ENV_NAME) ∈ fs := by
  unfold needed_files
  dsimp only
  rw [h]
  exact ⟨_, rfl, dictInsert_mem_self _ _ _⟩

theorem needed_files_zero_candidates_universal_witness :
    environment_files (src_paths true ["ex"] "nb.ipynb" []) = [] ∧
    ∃ fs, needed_files true ["ex"] "nb.ipynb" [] = .ok fs ∧
      (UNIVERSAL_ENV_PATH, PACKAGED_ENV_NAME) ∈ fs :=
  ⟨by decide, needed_files_zero_candidates_universal true ["ex"] "nb.ipynb" [] (by decide)⟩

/-- C4: when the sibling assets contain exactly one candidate environment
file, `needed_files` maps that candidate to `PACKAGED_ENV_NAME` whatever
its original name, and no entry of the result has the candidate's
original non-canonical name as destination (proc_examples.py lines 75-78). -/
theorem needed_files_single_candidate_renames
    (bare : Bool) (parent : FP) (nbName : String) (sibNames : List String) (c : FP)
    (h : environment_files (src_paths bare parent nbName sibNames) = [c]) :
    ∃ fs, needed_files bare parent nbName sibNames = .ok fs ∧
      (c, PACKAGED_ENV_NAME) ∈ fs ∧
      (pname c ≠ "environment.yaml" → ∀ kv ∈ fs, kv.2 ≠ [pname c]) := by
  have hc : isEnvCandidate c = true :=
    (List.mem_filter.mp (h ▸ List.mem_singleton.mpr rfl : c ∈ environment_files _)).2
  unfold needed_files
  dsimp only
  rw [h]
  refine ⟨_, rfl, ?_, ?_⟩
  · simpa using dictInsert_mem_self (initialFiles parent _) c PACKAGED_ENV_NAME
  · intro hname kv hkv hdest
    simp only [List.headD_cons] at hkv
    rcases dictInsert_mem_elim hkv with heq | ⟨hmem, hne⟩
    · rw [heq] at hdest
      exact hname (by simpa [PACKAGED_ENV_NAME] using hdest.symm)
    · obtain ⟨hsp, hrel⟩ := initialFiles_mem_elim hmem
      obtain ⟨n, hn⟩ := src_paths_shape hsp
      rw [hn, relTo_append] at hrel
      have hnc : n = pname c := by
        have := hrel ▸ hdest
        simpa using this
      have hkc : isEnvCandidate kv.1 = true := by
        rw [hn, isEnvCandidate, pname_append, hnc]
        rw [isEnvCandidate] at hc
        exact hc
      have : kv.1 ∈ environment_files (src_paths bare parent nbName sibNames) :=
        List.mem_filter.mpr ⟨hsp, hkc⟩
      rw [h] at this
      exact hne (List.mem_singleton.mp this)

theorem needed_files_single_candidate_renames_witness :
    environment_files (src_paths false ["ex"] "nb.ipynb" ["nb.ipynb", "environment.yml"]) =
      [["ex", "environment.yml"]] ∧
    ∃ fs, needed_files false ["ex"] "nb.ipynb" ["nb.ipynb", "environment.yml"] = .ok fs ∧
      ((["ex", "environment.yml"], PACKAGED_ENV_NAME) ∈ fs ∧
      (pname ["ex", "environment.yml"] ≠ "environment.yaml" →
        ∀ kv ∈ fs, kv.2 ≠ [pname ["ex", "environment.yml"]])) :=
  ⟨by decide,
    needed_files_single_candidate_renames false ["ex"] "nb.ipynb"
      ["nb.ipynb", "environment.yml"] ["ex", "environment.yml"] (by decide)⟩

lemma joinPathLines_split {c : FP} {l : List FP} (h : c ∈ l) :
    ∃ x y, joinPathLines l = x ++ pathStr c ++ y := by
  induction l with
  | nil => cases h
  | cons p ps ih =>
    rcases List.mem_cons.mp h with rfl | hmem
    · exact ⟨"\n  ", joinPathLines ps, by simp [joinPathLines, String.append_assoc]⟩
    · obtain ⟨x, y, hxy⟩ := ih hmem
      exact ⟨"\n  " ++ pathStr p ++ x, y,
        by simp [joinPathLines, hxy, String.append_assoc]⟩

/-- C2: when the sibling assets contain two or more candidate environment
files none of which bears the canonical name, `needed_files` fails and
the error message lists the path of every candidate and names the
expected canonical filename (proc_examples.py lines 85-90). -/
theorem needed_files_multiple_noncanonical_error
    (bare : Bool) (parent : FP) (nbName : String) (sibNames : List String)
    (h2 : 2 ≤ (environment_files (src_paths bare parent nbName sibNames)).length)
    (hnc : ∀ c ∈ environment_files (src_paths bare parent nbName sibNames),
      pname c ≠ "environment.yaml") :
    ∃ msg, needed_files bare parent nbName sibNames = .error msg ∧
      (∀ c ∈ environment_files (src_paths bare parent nbName sibNames),
        ∃ x y, msg = x ++ pathStr c ++ y) ∧
      (∃ x y, msg = x ++ "environment.yaml" ++ y) := by
  have hcon :
      (environment_files (src_paths bare parent nbName sibNames)).contains
        PACKAGED_ENV_NAME = false := by
    rw [Bool.eq_false_iff]
    intro hc
    have hmem : PACKAGED_ENV_NAME ∈ environment_files (src_paths bare parent nbName sibNames) := by
      simpa using hc
    exact hnc PACKAGED_ENV_NAME hmem rfl
  refine ⟨multiEnvErrorMsg (environment_files (src_paths bare parent nbName sibNames)),
    ?_, ?_, ?_⟩
  · unfold needed_files
    dsimp only
    have h0 : ((environment_files (src_paths bare parent nbName sibNames)).length == 0) = false := by
      rw [beq_eq_false_iff_ne]
      omega
    have h1 : ((environment_files (src_paths bare parent nbName sibNames)).length == 1) = false := by
      rw [beq_eq_false_iff_ne]
      omega
    simp only [h0, h1, hcon, Bool.false_eq_true, if_false]
  · intro c hc
    obtain ⟨x, y, hxy⟩ := joinPathLines_split hc
    refine ⟨"Could not choose a Conda environment file from multiple candidates:" ++ x,
      y ++ "\nName the intended Conda environment \x27environment.yaml\x27.", ?_⟩
    simp [multiEnvErrorMsg, hxy, String.append_assoc]
  · have lit : ("\nName the intended Conda environment \x27environment.yaml\x27." : String) =
        "\nName the intended Conda environment \x27" ++ "environment.yaml" ++ "\x27." := by
      decide
    refine ⟨"Could not choose a Conda environment file from multiple candidates:"
        ++ joinPathLines (environment_files (src_paths bare parent nbName sibNames))
        ++ "\nName the intended Conda environment \x27",
      "\x27.", ?_⟩
    rw [multiEnvErrorMsg, lit]
    simp [String.append_assoc]

theorem needed_files_multiple_noncanonical_error_witness :
    2 ≤ (environment_files (src_paths false ["a"] "nb.ipynb"
      ["environment.yml", "environment.yml"])).length ∧
    (∀ c ∈ environment_files (src_paths false ["a"] "nb.ipynb"
      ["environment.yml", "environment.yml"]), pname c ≠ "environment.yaml") ∧
    ∃ msg, needed_files false ["a"] "nb.ipynb" ["environment.yml", "environment.yml"] =
        .error msg ∧
      (∀ c ∈ environment_files (src_paths false ["a"] "nb.ipynb"
        ["environment.yml", "environment.yml"]), ∃ x y, msg = x ++ pathStr c ++ y) ∧
      (∃ x y, msg = x ++ "environment.yaml" ++ y) :=
  ⟨by decide, by decide,
    needed_files_multiple_noncanonical_error false ["a"] "nb.ipynb"
      ["environment.yml", "environment.yml"] (by decide) (by decide)⟩

/-- C1: contrary to the claim (and to the function's own docstring and
the comment at proc_examples.py lines 79-84), a notebook whose sibling
assets contain multiple candidate environment files, one of which bears
the canonical name `environment.yaml`, makes `needed_files` raise: the
test `PACKAGED_ENV_NAME in environment_files` compares the bare name
against full sibling paths, so it never fires for a notebook below a
directory.  Concretely, for `ex/nb.ipynb` with siblings
`ex/environment.yaml` and `ex/environment.yml`, one candidate is
canonically named, yet the result is an error. -/
theorem needed_files_canonical_among_multiple_raises :
    (["ex", "environment.yaml"] ∈
      environment_files (src_paths false ["ex"] "nb.ipynb"
        ["nb.ipynb", "environment.yaml", "environment.yml"]) ∧
      pname ["ex", "environment.yaml"] = "environment.yaml") ∧
    2 ≤ (environment_files (src_paths false ["ex"] "nb.ipynb"
      ["nb.ipynb", "environment.yaml", "environment.yml"])).length ∧
    exceptIsOk
      (needed_files false ["ex"] "nb.ipynb"
        ["nb.ipynb", "environment.yaml", "environment.yml"]) = false := by
  refine ⟨⟨by decide, rfl⟩, by decide, by decide⟩

/-- One observable step of `main` (proc_examples.py lines 240-296):
clearing one of the three output roots, cleaning up a removed notebook,
building a notebook's Colab bundle, zipping a notebook, or executing a
notebook. -/
inductive Act where
  | rmtree (dir : FP)
  | cleanupNb (nb : FP)
  | colabNb (nb : FP)
  | zipNb (nb : FP)
  | execNb (nb : FP)
deriving DecidableEq

/-- cookbook/github.py's report (its module is separate from
proc_examples.py): which notebooks to reprocess, which to clean up, and
whether everything must be rebuilt; consumed by `main` as an opaque
value, so it is an input of the trace model. -/
structure UpdatedNotebooks where
  rebuild_all : Bool
  reprocess : List FP
  cleanup : List FP

/-- Whether an action packages a notebook (Colab bundle or zip). -/
def isPackagingAct : Act → Bool
  | .colabNb _ => true
  | .zipNb _ => true
  | _ => false

/-- Whether an action reprocesses a notebook (packaging or execution). -/
def isProcessingAct : Act → Bool
  | .colabNb _ => true
  | .zipNb _ => true
  | .execNb _ => true
  | _ => false

/-- Whether an action is the cleanup of a removed notebook. -/
def isCleanupAct : Act → Bool
  | .cleanupNb _ => true
  | _ => false

/-- Whether an action clears an output root. -/
def isRmtreeAct : Act → Bool
  | .rmtree _ => true
  | _ => false

/-- proc_examples.py lines 283-287: under `do_proc`, each notebook gets a
Colab bundle then a zip, in order. -/
def procActions (do_proc : Bool) (nbs : List FP) : List Act :=
  if do_proc then nbs.flatMap (fun nb => [.colabNb nb, .zipNb nb]) else []

/-- proc_examples.py lines 290-296: under `do_exec`, each notebook is
executed (pool order is abstracted as submission order). -/
def execActions (do_exec : Bool) (nbs : List FP) : List Act :=
  if do_exec then nbs.map Act.execNb else []

/-- proc_examples.py lines 273-277: the incremental notebook set, the
found notebooks intersected with the reprocess paths resolved against
`SRC_IPYNB_ROOT`. -/
def incrementalNotebooks (u : UpdatedNotebooks) (found : List FP) : List FP :=
  found.filter (fun nb => (u.reprocess.map (fun p => SRC_IPYNB_ROOT ++ p)).contains nb)

/-- proc_examples.py lines 258-296: the sequence of filesystem-affecting
steps `main` performs after the fetch, given the fetcher's report
`u` and the notebooks `found` by the directory search. -/
def mainTrace (u : UpdatedNotebooks) (found : List FP)
    (do_proc do_exec redo_all : Bool) : List Act :=
  if u.rebuild_all || redo_all then
    [Act.rmtree EXEC_IPYNB_ROOT, Act.rmtree COLAB_IPYNB_ROOT,
      Act.rmtree ZIPPED_IPYNB_ROOT]
      ++ (procActions do_proc found ++ execActions do_exec found)
  else
    (u.cleanup.map Act.cleanupNb)
      ++ (procActions do_proc (incrementalNotebooks u found)
          ++ execActions do_exec (incrementalNotebooks u found))

lemma mem_procActions {dp : Bool} {nbs : List FP} {a : Act}
    (h : a ∈ procActions dp nbs) : ∃ nb, a = .colabNb nb ∨ a = .zipNb nb := by
  unfold procActions at h
  split at h
  · obtain ⟨nb, _, hnb⟩ := List.mem_flatMap.mp h
    rcases List.mem_cons.mp hnb with rfl | hnb'
    · exact ⟨nb, Or.inl rfl⟩
    · exact ⟨nb, Or.inr (List.mem_singleton.mp hnb')⟩
  · cases h

lemma mem_execActions {de : Bool} {nbs : List FP} {a : Act}
    (h : a ∈ execActions de nbs) : ∃ nb, a = .execNb nb := by
  unfold execActions at h
  split at h
  · obtain ⟨nb, _, hnb⟩ := List.mem_map.mp h
    exact ⟨nb, hnb.symm⟩
  · cases h

lemma append_cross_lt {A B : List Act} {P Q : Act → Bool}
    (hA : ∀ a ∈ A, Q a = false) (hB : ∀ b ∈ B, P b = false) :
    ∀ i j (hi : i < (A ++ B).length) (hj : j < (A ++ B).length),
      P ((A ++ B)[i]) = true → Q ((A ++ B)[j]) = true → i < j := by
  intro i j hi hj hP hQ
  have hiA : i < A.length := by
    by_contra hge
    push_neg at hge
    have hmem : (A ++ B)[i] ∈ B := by
      rw [List.getElem_append_right hge]
      exact List.getElem_mem _
    rw [hB _ hmem] at hP
    exact Bool.false_ne_true hP
  have hjB : A.length ≤ j := by
    by_contra hlt
    push_neg at hlt
    have hmem : (A ++ B)[j] ∈ A := by
      rw [List.getElem_append_left hlt]
      exact List.getElem_mem _
    rw [hA _ hmem] at hQ
    exact Bool.false_ne_true hQ
  omega

/-- C6: whenever a full rebuild is requested (the fetcher's
`rebuild_all` signal or the explicit `redo_all` override), the trace of
`main` clears all three output roots (executed, Colab, zipped), and
every clearing happens before any notebook is reprocessed — regardless
of the flags and in particular even when `found` is empty
(proc_examples.py lines 260-268). -/
theorem mainTrace_full_rebuild_clears_first
    (u : UpdatedNotebooks) (found : List FP) (do_proc do_exec redo_all : Bool)
    (h : u.rebuild_all = true ∨ redo_all = true) :
    Act.rmtree EXEC_IPYNB_ROOT ∈ mainTrace u found do_proc do_exec redo_all ∧
    Act.rmtree COLAB_IPYNB_ROOT ∈ mainTrace u found do_proc do_exec redo_all ∧
    Act.rmtree ZIPPED_IPYNB_ROOT ∈ mainTrace u found do_proc do_exec redo_all ∧
    ∀ i j (hi : i < (mainTrace u found do_proc do_exec redo_all).length)
        (hj : j < (mainTrace u found do_proc do_exec redo_all).length),
      isRmtreeAct ((mainTrace u found do_proc do_exec redo_all)[i]) = true →
      isProcessingAct ((mainTrace u found do_proc do_exec redo_all)[j]) = true →
      i < j := by
  have hcond : (u.rebuild_all || redo_all) = true := by
    rcases h with h | h <;> simp [h]
  have htr : mainTrace u found do_proc do_exec redo_all =
      [Act.rmtree EXEC_IPYNB_ROOT, Act.rmtree COLAB_IPYNB_ROOT,
        Act.rmtree ZIPPED_IPYNB_ROOT]
        ++ (procActions do_proc found ++ execActions do_exec found) := by
    unfold mainTrace
    rw [hcond]
    rfl
  rw [htr]
  refine ⟨by simp, by simp, by simp, ?_⟩
  apply append_cross_lt
  · intro a ha
    rcases List.mem_cons.mp ha with rfl | ha
    · rfl
    rcases List.mem_cons.mp ha with rfl | ha
    · rfl
    rcases List.mem_cons.mp ha with rfl | ha
    · rfl
    cases ha
  · intro b hb
    rcases List.mem_append.mp hb with hb | hb
    · obtain ⟨nb, hnb | hnb⟩ := mem_procActions hb <;> rw [hnb] <;> rfl
    · obtain ⟨nb, hnb⟩ := mem_execActions hb
      rw [hnb]
      rfl

theorem mainTrace_full_rebuild_clears_first_witness :
    ((⟨true, [], []⟩ : UpdatedNotebooks).rebuild_all = true ∨ false = true) ∧
    (Act.rmtree EXEC_IPYNB_ROOT ∈
        mainTrace ⟨true, [], []⟩ ([] : List FP) true true false ∧
      Act.rmtree COLAB_IPYNB_ROOT ∈
        mainTrace ⟨true, [], []⟩ ([] : List FP) true true false ∧
      Act.rmtree ZIPPED_IPYNB_ROOT ∈
        mainTrace ⟨true, [], []⟩ ([] : List FP) true true false ∧
      ∀ i j (hi : i < (mainTrace ⟨true, [], []⟩ ([] : List FP) true true false).length)
          (hj : j < (mainTrace ⟨true, [], []⟩ ([] : List FP) true true false).length),
        isRmtreeAct ((mainTrace ⟨true, [], []⟩ ([] : List FP) true true false)[i]) = true →
        isProcessingAct ((mainTrace ⟨true, [], []⟩ ([] : List FP) true true false)[j]) = true →
        i < j) :=
  ⟨Or.inl rfl,
    mainTrace_full_rebuild_clears_first ⟨true, [], []⟩ [] true true false (Or.inl rfl)⟩

lemma mem_incrementalNotebooks {u : UpdatedNotebooks} {found : List FP} {nb : FP} :
    nb ∈ incrementalNotebooks u found ↔
      nb ∈ found ∧ ∃ p ∈ u.reprocess, nb = SRC_IPYNB_ROOT ++ p := by
  unfold incrementalNotebooks
  rw [List.mem_filter]
  constructor
  · rintro ⟨h1, h2⟩
    refine ⟨h1, ?_⟩
    have hm : nb ∈ u.reprocess.map (fun p => SRC_IPYNB_ROOT ++ p) := by simpa using h2
    obtain ⟨p, hp, hpe⟩ := List.mem_map.mp hm
    exact ⟨p, hp, hpe.symm⟩
  · rintro ⟨h1, p, hp, rfl⟩
    refine ⟨h1, ?_⟩
    simpa using hp

lemma mainTrace_incremental_eq (u : UpdatedNotebooks) (found : List FP)
    (do_proc do_exec : Bool) (hra : u.rebuild_all = false) :
    mainTrace u found do_proc do_exec false =
      (u.cleanup.map Act.cleanupNb)
        ++ (procActions do_proc (incrementalNotebooks u found)
            ++ execActions do_exec (incrementalNotebooks u found)) := by
  unfold mainTrace
  rw [hra]
  rfl

/-- C5: in the incremental case (no fetcher rebuild-all signal, no
explicit override) with packaging and execution enabled, the trace of
`main` packages (Colab bundle and zip) and executes exactly the
notebooks in the intersection of the found set with the fetcher's
reprocess set resolved below `SRC_IPYNB_ROOT`, and every notebook the
fetcher reports removed is cleaned up before any packaging action
(proc_examples.py lines 269-287). -/
theorem mainTrace_incremental_intersection
    (u : UpdatedNotebooks) (found : List FP) (hra : u.rebuild_all = false) :
    (∀ nb, Act.colabNb nb ∈ mainTrace u found true true false ↔
        nb ∈ found ∧ ∃ p ∈ u.reprocess, nb = SRC_IPYNB_ROOT ++ p) ∧
    (∀ nb, Act.zipNb nb ∈ mainTrace u found true true false ↔
        nb ∈ found ∧ ∃ p ∈ u.reprocess, nb = SRC_IPYNB_ROOT ++ p) ∧
    (∀ nb, Act.execNb nb ∈ mainTrace u found true true false ↔
        nb ∈ found ∧ ∃ p ∈ u.reprocess, nb = SRC_IPYNB_ROOT ++ p) ∧
    (∀ nb ∈ u.cleanup, Act.cleanupNb nb ∈ mainTrace u found true true false) ∧
    (∀ i j (hi : i < (mainTrace u found true true false).length)
        (hj : j < (mainTrace u found true true false).length),
      isCleanupAct ((mainTrace u found true true false)[i]) = true →
      isPackagingAct ((mainTrace u found true true false)[j]) = true → i < j) := by
  have htr := mainTrace_incremental_eq u found true true hra
  refine ⟨?_, ?_, ?_, ?_, ?_⟩
  · intro nb
    rw [htr, ← mem_incrementalNotebooks]
    simp [procActions, execActions, List.mem_flatMap]
  · intro nb
    rw [htr, ← mem_incrementalNotebooks]
    simp [procActions, execActions, List.mem_flatMap]
  · intro nb
    rw [htr, ← mem_incrementalNotebooks]
    simp [procActions, execActions, List.mem_flatMap]
  · intro nb hnb
    rw [htr]
    exact List.mem_append.mpr (Or.inl (List.mem_map.mpr ⟨nb, hnb, rfl⟩))
  · rw [htr]
    apply append_cross_lt
    · intro a ha
      obtain ⟨x, _, hx⟩ := List.mem_map.mp ha
      rw [← hx]
      rfl
    · intro b hb
      rcases List.mem_append.mp hb with hb | hb
      · obtain ⟨nb, hnb | hnb⟩ := mem_procActions hb <;> rw [hnb] <;> rfl
      · obtain ⟨nb, hnb⟩ := mem_execActions hb
        rw [hnb]
        rfl

/-- A concrete fetcher report for exercising the incremental path. -/
def sampleUpdates : UpdatedNotebooks :=
  ⟨false, [["sub", "nb1.ipynb"]], [["build", "notebook-src", "gone.ipynb"]]⟩

/-- A concrete found-notebook list for exercising the incremental path. -/
def sampleFound : List FP :=
  [["build", "notebook-src", "sub", "nb1.ipynb"],
   ["build", "notebook-src", "sub", "nb2.ipynb"]]

theorem mainTrace_incremental_intersection_witness :
    sampleUpdates.rebuild_all = false ∧
    ((∀ nb, Act.colabNb nb ∈ mainTrace sampleUpdates sampleFound true true false ↔
        nb ∈ sampleFound ∧ ∃ p ∈ sampleUpdates.reprocess, nb = SRC_IPYNB_ROOT ++ p) ∧
      (∀ nb, Act.zipNb nb ∈ mainTrace sampleUpdates sampleFound true true false ↔
        nb ∈ sampleFound ∧ ∃ p ∈ sampleUpdates.reprocess, nb = SRC_IPYNB_ROOT ++ p) ∧
      (∀ nb, Act.execNb nb ∈ mainTrace sampleUpdates sampleFound true true false ↔
        nb ∈ sampleFound ∧ ∃ p ∈ sampleUpdates.reprocess, nb = SRC_IPYNB_ROOT ++ p) ∧
      (∀ nb ∈ sampleUpdates.cleanup,
        Act.cleanupNb nb ∈ mainTrace sampleUpdates sampleFound true true false) ∧
      (∀ i j (hi : i < (mainTrace sampleUpdates sampleFound true true false).length)
          (hj : j < (mainTrace sampleUpdates sampleFound true true false).length),
        isCleanupAct ((mainTrace sampleUpdates sampleFound true true false)[i]) = true →
        isPackagingAct ((mainTrace sampleUpdates sampleFound true true false)[j]) = true →
        i < j)) :=
  ⟨rfl, mainTrace_incremental_intersection sampleUpdates sampleFound rfl⟩

/-- A filesystem state: the set of files present, as a list of paths. -/
abbrev FS := List FP

/-- Python `path.unlink()`: remove the file; FileNotFoundError if absent. -/
def unlink (fs : FS) (p : FP) : Except String FS :=
  if fs.contains p then .ok (fs.filter (fun q => !(q == p))) else .error "FileNotFoundError"

/-- Python `shutil.rmtree(d)` without `ignore_errors`: remove every file
below `d`; an error when nothing is there (a directory exists exactly
when some file lies below it). -/
def rmtree (fs : FS) (d : FP) : Except String FS :=
  if fs.any (fun p => underDir d p) then .ok (fs.filter (fun p => !(underDir d p)))
  else .error "FileNotFoundError"

/-- Modelled from the spec: `notebook_zip` lives in cookbook/notebook.py,
which is not among the sources.  Per the spec ("a single compressed
archive per notebook", "an archive output directory") and globals.py's
`ZIPPED_IPYNB_ROOT` docstring, each notebook's zip lives below
`ZIPPED_IPYNB_ROOT` at the notebook's source-relative location. -/
def notebook_zip (nb : FP) : FP :=
  ZIPPED_IPYNB_ROOT ++ ((relTo SRC_IPYNB_ROOT nb).dropLast ++ [pname nb ++ ".zip"])

/-- Modelled from the spec: `notebook_colab` lives in cookbook/notebook.py,
which is not among the sources.  Per the spec ("Colab bundle: a directory
containing a notebook and its assets") and globals.py's
`COLAB_IPYNB_ROOT` docstring, the Colab copy of a notebook lives below
`COLAB_IPYNB_ROOT` at the notebook's source-relative location, inside
its bundle directory. -/
def notebook_colab (nb : FP) : FP :=
  COLAB_IPYNB_ROOT ++ relTo SRC_IPYNB_ROOT nb

/-- proc_examples.py line 235: the Colab bundle directory is the parent
of the notebook's Colab copy. -/
def colabBundleDir (nb : FP) : FP := (notebook_colab nb).dropLast

/-- proc_examples.py line 236: the executed copy of the notebook. -/
def exec_notebook (nb : FP) : FP := EXEC_IPYNB_ROOT ++ relTo SRC_IPYNB_ROOT nb

/-- Sequencing of fallible filesystem steps (Python statements raise at
the first failure). -/
def exceptBind (x : Except String FS) (f : FS → Except String FS) : Except String FS :=
  match x with
  | .error e => .error e
  | .ok v => f v

/-- proc_examples.py lines 228-237, `clean_up_notebook`: unlink the zip,
remove the Colab bundle directory tree, unlink the executed copy. -/
def clean_up_notebook (fs : FS) (nb : FP) : Except String FS :=
  exceptBind (unlink fs (notebook_zip nb)) (fun fs1 =>
    exceptBind (rmtree fs1 (colabBundleDir nb)) (fun fs2 =>
      unlink fs2 (exec_notebook nb)))

lemma exceptBind_ok {v : FS} {f : FS → Except String FS} :
    exceptBind (.ok v) f = f v := rfl

lemma exceptBind_ok_elim {x : Except String FS} {f : FS → Except String FS} {v : FS}
    (h : exceptBind x f = .ok v) : ∃ w, x = .ok w ∧ f w = .ok v := by
  cases x with
  | error e => simp [exceptBind] at h
  | ok w => exact ⟨w, rfl, h⟩

lemma unlink_ok {fs fs' : FS} {p : FP} (h : unlink fs p = .ok fs') :
    fs' = fs.filter (fun q => !(q == p)) := by
  unfold unlink at h
  split at h
  · injection h with h
    exact h.symm
  · cases h

lemma rmtree_ok {fs fs' : FS} {d : FP} (h : rmtree fs d = .ok fs') :
    fs' = fs.filter (fun p => !(underDir d p)) := by
  unfold rmtree at h
  split at h
  · injection h with h
    exact h.symm
  · cases h

lemma take_of_underDir {d p : FP} (h : underDir d p = true) {n : Nat}
    (hn : n ≤ d.length) : p.take n = d.take n := by
  unfold underDir at h
  have hd : d = p.take d.length := beq_iff_eq.mp h
  have ht : (p.take d.length).take n = p.take n := by
    rw [List.take_take, Nat.min_eq_left hn]
  rw [← ht, ← hd]

lemma notebook_zip_take3 (nb : FP) : (notebook_zip nb).take 3 = ZIPPED_IPYNB_ROOT := rfl

lemma notebook_zip_take2 (nb : FP) : (notebook_zip nb).take 2 = ["source", "_static"] := rfl

lemma exec_notebook_take2 (nb : FP) : (exec_notebook nb).take 2 = ["source", "notebooks"] := rfl

lemma colabBundleDir_length2 (nb : FP) : 2 ≤ (colabBundleDir nb).length := by
  unfold colabBundleDir notebook_colab
  rw [List.length_dropLast]
  simp [COLAB_IPYNB_ROOT]

lemma colabBundleDir_take2 (nb : FP) :
    (colabBundleDir nb).take 2 = ["source", "_static"] := by
  unfold colabBundleDir notebook_colab
  rw [List.dropLast_eq_take, List.take_take]
  have h2 : 2 ≤ (COLAB_IPYNB_ROOT ++ relTo SRC_IPYNB_ROOT nb).length - 1 := by
    simp [COLAB_IPYNB_ROOT]
  rw [Nat.min_eq_left h2]
  rfl

lemma colabBundleDir_length3 {nb : FP} (hlen : SRC_IPYNB_ROOT.length < nb.length) :
    3 ≤ (colabBundleDir nb).length := by
  have hlen' : 2 < nb.length := by simpa [SRC_IPYNB_ROOT] using hlen
  unfold colabBundleDir notebook_colab
  rw [List.length_dropLast]
  simp [COLAB_IPYNB_ROOT, relTo, SRC_IPYNB_ROOT]
  omega

lemma colabBundleDir_take3 {nb : FP} (hlen : SRC_IPYNB_ROOT.length < nb.length) :
    (colabBundleDir nb).take 3 = COLAB_IPYNB_ROOT := by
  have hlen' : 2 < nb.length := by simpa [SRC_IPYNB_ROOT] using hlen
  unfold colabBundleDir notebook_colab
  rw [List.dropLast_eq_take, List.take_take]
  have h3 : 3 ≤ (COLAB_IPYNB_ROOT ++ relTo SRC_IPYNB_ROOT nb).length - 1 := by
    simp [COLAB_IPYNB_ROOT, relTo, SRC_IPYNB_ROOT]
    omega
  rw [Nat.min_eq_left h3]
  rfl

/-- C7: for a notebook below `SRC_IPYNB_ROOT` whose three processed
artifacts all exist (its zip, some file in its Colab bundle directory,
and its executed copy), the first call to `clean_up_notebook` succeeds
and removes all three: the zip is gone, nothing remains below the Colab
bundle directory, and the executed copy is gone
(proc_examples.py lines 228-237). -/
theorem clean_up_notebook_removes_artifacts
    (fs : FS) (nb : FP)
    (hsrc : underDir SRC_IPYNB_ROOT nb = true)
    (hlen : SRC_IPYNB_ROOT.length < nb.length)
    (hzip : notebook_zip nb ∈ fs)
    (hcolab : ∃ p ∈ fs, underDir (colabBundleDir nb) p = true)
    (hexec : exec_notebook nb ∈ fs) :
    ∃ fs3, clean_up_notebook fs nb = .ok fs3 ∧
      notebook_zip nb ∉ fs3 ∧
      (∀ p ∈ fs3, underDir (colabBundleDir nb) p = false) ∧
      exec_notebook nb ∉ fs3 := by
  obtain ⟨w, hwfs, hwund⟩ := hcolab
  have h1 : unlink fs (notebook_zip nb) =
      .ok (fs.filter (fun q => !(q == notebook_zip nb))) := by
    unfold unlink
    rw [if_pos (by simpa using hzip)]
  have hwne : w ≠ notebook_zip nb := by
    intro he
    have h3 := take_of_underDir hwund (colabBundleDir_length3 hlen)
    rw [colabBundleDir_take3 hlen, he, notebook_zip_take3] at h3
    exact absurd h3 (by decide)
  have hw1 : w ∈ fs.filter (fun q => !(q == notebook_zip nb)) :=
    List.mem_filter.mpr ⟨hwfs, by simp [hwne]⟩
  have h2 : rmtree (fs.filter (fun q => !(q == notebook_zip nb))) (colabBundleDir nb) =
      .ok ((fs.filter (fun q => !(q == notebook_zip nb))).filter
        (fun p => !(underDir (colabBundleDir nb) p))) := by
    unfold rmtree
    rw [if_pos (List.any_eq_true.mpr ⟨w, hw1, hwund⟩)]
  have hexne : exec_notebook nb ≠ notebook_zip nb := by
    intro he
    have h3 := congrArg (List.take 2) he
    rw [exec_notebook_take2, notebook_zip_take2] at h3
    exact absurd h3 (by decide)
  have hexnu : underDir (colabBundleDir nb) (exec_notebook nb) = false := by
    rw [Bool.eq_false_iff]
    intro hu
    have h3 := take_of_underDir hu (colabBundleDir_length2 nb)
    rw [colabBundleDir_take2, exec_notebook_take2] at h3
    exact absurd h3 (by decide)
  have hex2 : exec_notebook nb ∈
      (fs.filter (fun q => !(q == notebook_zip nb))).filter
        (fun p => !(underDir (colabBundleDir nb) p)) :=
    List.mem_filter.mpr ⟨List.mem_filter.mpr ⟨hexec, by simp [hexne]⟩, by simp [hexnu]⟩
  have h3ok : unlink
      ((fs.filter (fun q => !(q == notebook_zip nb))).filter
        (fun p => !(underDir (colabBundleDir nb) p)))
      (exec_notebook nb) =
      .ok (((fs.filter (fun q => !(q == notebook_zip nb))).filter
        (fun p => !(underDir (colabBundleDir nb) p))).filter
        (fun q => !(q == exec_notebook nb))) := by
    unfold unlink
    rw [if_pos (by simpa using hex2)]
  refine ⟨((fs.filter (fun q => !(q == notebook_zip nb))).filter
      (fun p => !(underDir (colabBundleDir nb) p))).filter
      (fun q => !(q == exec_notebook nb)), ?_, ?_, ?_, ?_⟩
  · unfold clean_up_notebook
    rw [h1, exceptBind_ok]
    rw [h2, exceptBind_ok]
    exact h3ok
  · intro hmem
    have := (List.mem_filter.mp (List.mem_filter.mp (List.mem_filter.mp hmem).1).1).2
    simp at this
  · intro p hp
    have := (List.mem_filter.mp (List.mem_filter.mp hp).1).2
    simpa using this
  · intro hmem
    have := (List.mem_filter.mp hmem).2
    simp at this

/-- A concrete notebook below the source root, with all three artifacts. -/
def sampleNb : FP := ["build", "notebook-src", "toolkit", "nb.ipynb"]

/-- A concrete filesystem holding `sampleNb` and its three artifacts. -/
def sampleFS : FS :=
  [sampleNb,
   ["source", "_static", "examples", "toolkit", "nb.ipynb.zip"],
   ["source", "_static", "colab", "toolkit", "nb.ipynb"],
   ["source", "notebooks", "toolkit", "nb.ipynb"]]

theorem clean_up_notebook_removes_artifacts_witness :
    (underDir SRC_IPYNB_ROOT sampleNb = true ∧
      SRC_IPYNB_ROOT.length < sampleNb.length ∧
      notebook_zip sampleNb ∈ sampleFS ∧
      (∃ p ∈ sampleFS, underDir (colabBundleDir sampleNb) p = true) ∧
      exec_notebook sampleNb ∈ sampleFS) ∧
    ∃ fs3, clean_up_notebook sampleFS sampleNb = .ok fs3 ∧
      notebook_zip sampleNb ∉ fs3 ∧
      (∀ p ∈ fs3, underDir (colabBundleDir sampleNb) p = false) ∧
      exec_notebook sampleNb ∉ fs3 :=
  ⟨⟨by decide, by decide, by decide, by decide, by decide⟩,
    clean_up_notebook_removes_artifacts sampleFS sampleNb (by decide) (by decide)
      (by decide) (by decide) (by decide)⟩

/-- C10: `clean_up_notebook` never deletes the source notebook or
anything below the source cache `SRC_IPYNB_ROOT`, adds or modifies
nothing, and the only files it removes are the three derived artifacts:
the zip, files below the Colab bundle directory, and the executed copy
(proc_examples.py lines 228-237). -/
theorem clean_up_notebook_frame
    (fs : FS) (nb : FP) (fs3 : FS)
    (hsrc : underDir SRC_IPYNB_ROOT nb = true)
    (h : clean_up_notebook fs nb = .ok fs3) :
    (∀ p ∈ fs, underDir SRC_IPYNB_ROOT p = true → p ∈ fs3) ∧
    (∀ p ∈ fs3, p ∈ fs) ∧
    (∀ p ∈ fs, p ∉ fs3 →
      p = notebook_zip nb ∨ underDir (colabBundleDir nb) p = true ∨
        p = exec_notebook nb) := by
  unfold clean_up_notebook at h
  obtain ⟨fs1, hu1, h⟩ := exceptBind_ok_elim h
  obtain ⟨fs2, hu2, h⟩ := exceptBind_ok_elim h
  have e1 := unlink_ok hu1
  have e2 := rmtree_ok hu2
  have e3 := unlink_ok h
  subst e1
  subst e2
  subst e3
  have hmem : ∀ p : FP,
      p ∈ ((fs.filter (fun q => !(q == notebook_zip nb))).filter
          (fun q => !(underDir (colabBundleDir nb) q))).filter
          (fun q => !(q == exec_notebook nb)) ↔
        p ∈ fs ∧ ¬p = notebook_zip nb ∧ underDir (colabBundleDir nb) p = false ∧
          ¬p = exec_notebook nb := by
    intro p
    simp [List.mem_filter, and_assoc]
    tauto
  refine ⟨?_, ?_, ?_⟩
  · intro p hp hup
    have hp2 := take_of_underDir (n := 2) hup (by decide)
    refine (hmem p).mpr ⟨hp, ?_, ?_, ?_⟩
    · intro he
      have hc := congrArg (fun l => List.take 2 l) he
      simp only [notebook_zip_take2] at hc
      rw [hp2] at hc
      exact absurd hc (by decide)
    · rw [Bool.eq_false_iff]
      intro hu
      have h3 := take_of_underDir hu (colabBundleDir_length2 nb)
      rw [colabBundleDir_take2] at h3
      rw [hp2] at h3
      exact absurd h3 (by decide)
    · intro he
      have hc := congrArg (fun l => List.take 2 l) he
      simp only [exec_notebook_take2] at hc
      rw [hp2] at hc
      exact absurd hc (by decide)
  · intro p hp
    exact ((hmem p).mp hp).1
  · intro p hp hnot
    by_cases h1 : p = notebook_zip nb
    · exact Or.inl h1
    by_cases h2 : underDir (colabBundleDir nb) p = true
    · exact Or.inr (Or.inl h2)
    by_cases h3 : p = exec_notebook nb
    · exact Or.inr (Or.inr h3)
    have h2f : underDir (colabBundleDir nb) p = false := by
      rwa [Bool.not_eq_true] at h2
    exact absurd ((hmem p).mpr ⟨hp, h1, h2f, h3⟩) hnot

theorem clean_up_notebook_frame_witness :
    (underDir SRC_IPYNB_ROOT sampleNb = true ∧
      clean_up_notebook sampleFS sampleNb = .ok [sampleNb]) ∧
    ((∀ p ∈ sampleFS, underDir SRC_IPYNB_ROOT p = true → p ∈ [sampleNb]) ∧
      (∀ p ∈ [sampleNb], p ∈ sampleFS) ∧
      (∀ p ∈ sampleFS, p ∉ [sampleNb] →
        p = notebook_zip sampleNb ∨ underDir (colabBundleDir sampleNb) p = true ∨
          p = exec_notebook sampleNb)) :=
  ⟨⟨by decide, by rfl⟩,
    clean_up_notebook_frame sampleFS sampleNb [sampleNb] (by decide) (by rfl)⟩

/-- A notebook cell: its type, source lines, and metadata entries
(nbformat's richer metadata values are flattened to string pairs; a tags
list appears as one ("tags", tag) pair per tag). -/
structure Cell where
  cell_type : String
  source : List String
  metadata : List (String × String)
deriving DecidableEq

/-- A notebook document: its cells. -/
structure Notebook where
  cells : List Cell
deriving DecidableEq

/-- Modelled from the spec: `insert_cell` lives in cookbook/notebook.py,
which is not among the sources.  Per the spec's data model ("Notebook
document ... mutated by inserting cells") and "one
dependency-installation cell injected at a fixed position", it inserts
the given cell at a fixed position (modelled as the front) by mutating
the notebook, so the caller's notebook object holds the new cell whether
or not the return value is used. -/
def insert_cell (nb : Notebook) (cell : Cell) : Notebook := ⟨cell :: nb.cells⟩

/-- proc_examples.py lines 170-175: the hidden thumbnail display cell. -/
def thumbnailCell : Cell :=
  ⟨"code", ["display(thumbnail.png)"],
   [("nbsphinx", "hidden"), ("tags", "nbsphinx-thumbnail")]⟩

/-- proc_examples.py lines 162-175 of `execute_notebook`: the notebook
handed to the execution engine, after the thumbnail check.  The cell is
injected exactly when `thumbnail.png` exists beside the notebook; since
`insert_cell` mutates the notebook, the discarded return value at line
171 is immaterial. -/
def executed_input (hasThumbnail : Bool) (nb : Notebook) : Notebook :=
  if hasThumbnail then insert_cell nb thumbnailCell else nb

/-- C8: when a thumbnail image sits beside the notebook, the notebook
passed to the execution engine contains the injected hidden
thumbnail-display cell; without one, the notebook is passed unchanged
(proc_examples.py lines 170-175). -/
theorem execute_notebook_thumbnail_injection (nb : Notebook) :
    thumbnailCell ∈ (executed_input true nb).cells ∧
    executed_input false nb = nb := by
  constructor
  · simp [executed_input, insert_cell]
  · rfl

/-- The numeric value of a run of digit characters. -/
def digitsToNat (cs : List Char) : Nat :=
  cs.foldl (fun n c => n * 10 + (c.toNat - 48)) 0

/-- The dot-separated components of a character list. -/
def splitComponents : List Char → List (List Char)
  | [] => [[]]
  | c :: cs =>
    match splitComponents cs with
    | [] => [[c]]
    | r :: rs => if c = '.' then [] :: r :: rs else (c :: r) :: rs

/-- `packaging.version.Version` on simple numeric tags: the
dot-separated numeric components of the tag (the release tuple). -/
def parseVersion (s : String) : List Nat :=
  (splitComponents s.data).map digitsToNat

/-- packaging.version strips trailing zeros of the release tuple before
comparing, so "1.0" and "1.0.0" compare equal. -/
def stripZeros (a : List Nat) : List Nat :=
  (a.reverse.dropWhile (fun x => x == 0)).reverse

/-- Python tuple `<` on release tuples. -/
def lexLt : List Nat → List Nat → Bool
  | [], [] => false
  | [], _ :: _ => true
  | _ :: _, [] => false
  | a :: as, b :: bs => decide (a < b) || (a == b && lexLt as bs)

/-- The strict order `packaging.version.Version` induces on numeric tags. -/
def versionLt (a b : List Nat) : Bool := lexLt (stripZeros a) (stripZeros b)

/-- One step of Python `max(..., key=Version)`: keep the incumbent
unless the new element's key is strictly greater. -/
def pickNewer (best x : String) : String :=
  if versionLt (parseVersion best) (parseVersion x) then x else best

/-- Python `max(tags, key=Version)`: the greatest element by key, the
first such on ties; `max` of an empty sequence raises, hence `Option`. -/
def maxByVersion (tags : List String) : Option String :=
  match tags with
  | [] => none
  | t :: ts => some (ts.foldl pickNewer t)

/-- proc_examples.py lines 209-225, `get_stable_tagname`: concatenate
the tag names of every page of the paginated release listing and return
the maximum by `packaging.version.Version`. -/
def get_stable_tagname (pages : List (List String)) : Option String :=
  maxByVersion pages.flatten

lemma lexLt_irrefl (a : List Nat) : lexLt a a = false := by
  induction a with
  | nil => rfl
  | cons x xs ih => simp [lexLt, ih]

lemma lexLt_trans : ∀ (a b c : List Nat),
    lexLt a b = true → lexLt b c = true → lexLt a c = true := by
  intro a
  induction a with
  | nil =>
    intro b c hab hbc
    cases b with
    | nil => simp [lexLt] at hab
    | cons y ys =>
      cases c with
      | nil => simp [lexLt] at hbc
      | cons z zs => rfl
  | cons x xs ih =>
    intro b c hab hbc
    cases b with
    | nil => simp [lexLt] at hab
    | cons y ys =>
      cases c with
      | nil => simp [lexLt] at hbc
      | cons z zs =>
        simp only [lexLt, Bool.or_eq_true, Bool.and_eq_true, decide_eq_true_eq,
          beq_iff_eq] at hab hbc ⊢
        rcases hab with h1 | ⟨he1, h1⟩
        · rcases hbc with h2 | ⟨he2, h2⟩
          · exact Or.inl (Nat.lt_trans h1 h2)
          · exact Or.inl (he2 ▸ h1)
        · rcases hbc with h2 | ⟨he2, h2⟩
          · exact Or.inl (he1 ▸ h2)
          · exact Or.inr ⟨he1.trans he2, ih ys zs h1 h2⟩

lemma lexLt_total : ∀ (a b : List Nat),
    lexLt a b = true ∨ lexLt b a = true ∨ a = b := by
  intro a
  induction a with
  | nil =>
    intro b
    cases b with
    | nil => exact Or.inr (Or.inr rfl)
    | cons y ys => exact Or.inl rfl
  | cons x xs ih =>
    intro b
    cases b with
    | nil => exact Or.inr (Or.inl rfl)
    | cons y ys =>
      rcases Nat.lt_trichotomy x y with hxy | hxy | hxy
      · left
        simp [lexLt, hxy]
      · rcases ih ys with h | h | h
        · left
          simp [lexLt, hxy, h]
        · right
          left
          simp [lexLt, hxy, h]
        · right
          right
          rw [hxy, h]
      · right
        left
        simp [lexLt, hxy]

lemma versionLt_trans {a b c : List Nat} (h1 : versionLt a b = true)
    (h2 : versionLt b c = true) : versionLt a c = true :=
  lexLt_trans _ _ _ h1 h2

lemma foldl_pickNewer (ts : List String) :
    ∀ b : String,
      (ts.foldl pickNewer b = b ∨ ts.foldl pickNewer b ∈ ts) ∧
      versionLt (parseVersion (ts.foldl pickNewer b)) (parseVersion b) = false ∧
      ∀ t ∈ ts, versionLt (parseVersion (ts.foldl pickNewer b)) (parseVersion t) = false := by
  induction ts with
  | nil =>
    intro b
    refine ⟨Or.inl rfl, ?_, by simp⟩
    simp [versionLt, lexLt_irrefl]
  | cons x ts ih =>
    intro b
    have hfold : (x :: ts).foldl pickNewer b = ts.foldl pickNewer (pickNewer b x) := rfl
    rw [hfold]
    by_cases hbx : versionLt (parseVersion b) (parseVersion x) = true
    · have hpk : pickNewer b x = x := by
        unfold pickNewer
        rw [if_pos hbx]
      rw [hpk]
      obtain ⟨hmem, hnb, hall⟩ := ih x
      refine ⟨?_, ?_, ?_⟩
      · rcases hmem with h | h
        · refine Or.inr ?_
          rw [h]
          exact List.mem_cons_self x ts
        · exact Or.inr (List.mem_cons_of_mem x h)
      · rw [Bool.eq_false_iff]
        intro hrb
        have := versionLt_trans hrb hbx
        rw [hnb] at this
        cases this
      · intro t ht
        rcases List.mem_cons.mp ht with rfl | ht
        · exact hnb
        · exact hall t ht
    · have hbx' : versionLt (parseVersion b) (parseVersion x) = false := by
        rwa [Bool.not_eq_true] at hbx
      have hpk : pickNewer b x = b := by
        unfold pickNewer
        rw [if_neg (by rw [hbx']; exact Bool.false_ne_true)]
      rw [hpk]
      obtain ⟨hmem, hnb, hall⟩ := ih b
      refine ⟨?_, ?_, ?_⟩
      · rcases hmem with h | h
        · exact Or.inl h
        · exact Or.inr (List.mem_cons_of_mem x h)
      · exact hnb
      · intro t ht
        rcases List.mem_cons.mp ht with rfl | ht
        · rw [Bool.eq_false_iff]
          intro hrt
          rcases lexLt_total (stripZeros (parseVersion t)) (stripZeros (parseVersion b))
            with h | h | h
          · have := versionLt_trans hrt h
            rw [hnb] at this
            cases this
          · rw [versionLt] at hbx'
            rw [hbx'] at h
            cases h
          · rw [versionLt, h] at hrt
            rw [versionLt] at hnb
            rw [hrt] at hnb
            cases hnb
        · exact hall t ht

/-- C9: `get_stable_tagname` returns a tag of the paginated listing that
no listed tag exceeds in the semantic-version order (not the lexical
order); in particular, of the two release tags "0.9.0" and "0.10.0" it
selects "0.10.0" (proc_examples.py lines 209-225). -/
theorem get_stable_tagname_semver_max :
    get_stable_tagname [["0.9.0", "0.10.0"]] = some "0.10.0" ∧
    ∀ pages tag, get_stable_tagname pages = some tag →
      tag ∈ pages.flatten ∧
      ∀ t ∈ pages.flatten, versionLt (parseVersion tag) (parseVersion t) = false := by
  constructor
  · decide
  · intro pages tag h
    unfold get_stable_tagname maxByVersion at h
    cases hf : pages.flatten with
    | nil =>
      rw [hf] at h
      cases h
    | cons t ts =>
      rw [hf] at h
      injection h with h
      obtain ⟨hmem, hnb, hall⟩ := foldl_pickNewer ts t
      subst h
      constructor
      · rcases hmem with h | h
        · rw [h]
          exact List.mem_cons_self t ts
        · exact List.mem_cons_of_mem t h
      · intro u hu
        rcases List.mem_cons.mp hu with rfl | hu
        · exact hnb
        · exact hall u hu

theorem get_stable_tagname_semver_max_witness :
    get_stable_tagname [["0.9.0"], ["0.10.0"]] = some "0.10.0" ∧
    "0.10.0" ∈ ([["0.9.0"], ["0.10.0"]] : List (List String)).flatten ∧
    ∀ t ∈ ([["0.9.0"], ["0.10.0"]] : List (List String)).flatten,
      versionLt (parseVersion "0.10.0") (parseVersion t) = false :=
  ⟨by decide,
    (get_stable_tagname_semver_max.2 [["0.9.0"], ["0.10.0"]] "0.10.0" (by decide))⟩
